import Mathlib

set_option linter.all false

/-!
Shallow embedding of the CrossFit PR Tracker core (db.py, auth.py, app.py).

The SQLite database is modelled as an in-memory state: each table is a list of
rows in rowid (insertion) order, and each `AUTOINCREMENT` column is a counter
in the state.  `REAL` weights are modelled as rationals, `INTEGER` columns as
integers, `TEXT` columns as strings.  The `created_at` column of `users` is
never read by any operation under verification and is omitted.  The `date`
column holds `"%Y-%m-%d %H:%M:%S"` strings, which SQLite's `ORDER BY date
DESC` compares lexicographically; on that fixed-width format lexicographic
order coincides with chronological order, so dates are modelled as natural
numbers carrying exactly that order, and `ORDER BY date DESC` as a stable
descending sort on them.

bcrypt is modelled deterministically: `bcrypt.gensalt`/`hashpw` produce the
tagged string `"bcrypt$" ++ password`, and `bcrypt.checkpw` (which raises on a
malformed hash) is modelled as an `Except` that errs exactly when the hash
does not carry the tag.  The exception-raising behaviour of the Python
library is what `verify_password`'s try/except wraps.
-/

/-- A row of the `users` table (db.py, `init_database`). -/
structure UserRec where
  id : Nat
  username : String
  password_hash : String
  role : String
  full_name : Option String
  deriving Repr, DecidableEq

/-- A row of the `weightlifts_prs` table. -/
structure WeightliftRec where
  id : Nat
  user_id : Nat
  movement : String
  weight : Rat
  unit : String
  notes : String
  date : Nat
  deriving Repr, DecidableEq

/-- A row of the `benchmarks_prs` table. -/
structure BenchmarkRec where
  id : Nat
  user_id : Nat
  workout : String
  time_minutes : Int
  time_seconds : Int
  rounds : Int
  reps : Int
  notes : String
  date : Nat
  deriving Repr, DecidableEq

/-- The whole SQLite database file: three tables plus the autoincrement
counters. -/
structure DBState where
  users : List UserRec
  weightlifts : List WeightliftRec
  benchmarks : List BenchmarkRec
  next_user_id : Nat
  next_weightlift_id : Nat
  next_benchmark_id : Nat
  deriving Repr, DecidableEq

/-- Stable insertion for a descending sort on a date key: the new element
goes before the first element whose key is not greater than its own. -/
def insertByKeyDesc (key : α → Nat) (r : α) : List α → List α
  | [] => [r]
  | x :: xs => if key r < key x then x :: insertByKeyDesc key r xs else r :: x :: xs

/-- `ORDER BY date DESC` over rows scanned in rowid order: a stable
descending sort on the key. -/
def sortByKeyDesc (key : α → Nat) (l : List α) : List α :=
  l.foldr (insertByKeyDesc key) []

/-- Lookup in a Python dict modelled as an insertion-ordered association
list: the value at the first (unique, in a dict) occurrence of the key. -/
def dictFind : List (String × α) → String → Option α
  | [], _ => none
  | p :: ps, k => if p.1 == k then some p.2 else dictFind ps k

/-- `d[k] = v` on a Python dict: replace in place if the key is present,
append otherwise. -/
def dictInsert : List (String × α) → String → α → List (String × α)
  | [], k, v => [(k, v)]
  | p :: ps, k, v => if p.1 == k then (k, v) :: ps else p :: dictInsert ps k v

/-- db.create_user: INSERT INTO users; the UNIQUE constraint on `username`
makes a duplicate raise `IntegrityError`, caught and turned into `None`
with no row inserted. -/
def create_user (db : DBState) (username password_hash role : String)
    (full_name : Option String) : Option Nat × DBState :=
  if (db.users.find? (fun u => u.username == username)).isSome then
    (none, db)
  else
    let uid := db.next_user_id
    let u : UserRec := ⟨uid, username, password_hash, role, full_name⟩
    (some uid, { db with users := db.users ++ [u], next_user_id := uid + 1 })

/-- db.get_user_by_username: SELECT * FROM users WHERE username = ? then
`fetchone`, i.e. the first matching row in rowid order. -/
def get_user_by_username (db : DBState) (username : String) : Option UserRec :=
  db.users.find? (fun u => u.username == username)

/-- db.get_user_by_id. -/
def get_user_by_id (db : DBState) (user_id : Nat) : Option UserRec :=
  db.users.find? (fun u => u.id == user_id)

/-- db.update_user_role: UPDATE users SET role = ? WHERE id = ?; always
returns True (no exception arises in the modelled semantics). -/
def update_user_role (db : DBState) (user_id : Nat) (role : String) : Bool × DBState :=
  let users := db.users.map (fun u => if u.id == user_id then { u with role := role } else u)
  (true, { db with users := users })

/-- db.delete_user: DELETE FROM users WHERE id = ?.  Python's sqlite3 leaves
`PRAGMA foreign_keys` OFF by default and `get_connection` never enables it,
so the `ON DELETE CASCADE` clauses declared in the schema do not fire: only
the users row is removed, and the weightlift/benchmark rows owned by the
user stay in their tables. -/
def delete_user (db : DBState) (user_id : Nat) : Bool × DBState :=
  (true, { db with users := db.users.filter (fun u => !(u.id == user_id)) })

/-- db.get_weightlifts_by_user: SELECT * WHERE user_id = ? ORDER BY date
DESC. -/
def get_weightlifts_by_user (db : DBState) (user_id : Nat) : List WeightliftRec :=
  sortByKeyDesc (fun w => w.date) (db.weightlifts.filter (fun w => w.user_id == user_id))

/-- db.get_all_weightlifts: SELECT w.*, u.username, u.full_name FROM
weightlifts_prs w JOIN users u ON w.user_id = u.id ORDER BY w.date DESC.
The inner join drops any row whose owner id matches no users row. -/
def get_all_weightlifts (db : DBState) : List (WeightliftRec × UserRec) :=
  sortByKeyDesc (fun p => p.1.date)
    (db.weightlifts.bind (fun w =>
      (db.users.filter (fun u => u.id == w.user_id)).map (fun u => (w, u))))

/-- One iteration of the loop in db.get_current_prs_weightlifts: seed the
dict on an unseen movement, replace only on strictly greater weight. -/
def prsStepWeightlift (prs : List (String × WeightliftRec)) (entry : WeightliftRec) :
    List (String × WeightliftRec) :=
  match dictFind prs entry.movement with
  | none => dictInsert prs entry.movement entry
  | some cur =>
    if cur.weight < entry.weight then dictInsert prs entry.movement entry else prs

/-- db.get_current_prs_weightlifts. -/
def get_current_prs_weightlifts (db : DBState) (user_id : Nat) :
    List (String × WeightliftRec) :=
  let data := get_weightlifts_by_user db user_id
  if data.isEmpty then [] else data.foldl prsStepWeightlift []

/-- db.delete_weightlift_pr: DELETE WHERE id = ? (admin) or WHERE id = ? AND
user_id = ? (non-admin); returns True in both branches. -/
def delete_weightlift_pr (db : DBState) (pr_id : Nat) (user_id : Nat) (is_admin : Bool) :
    Bool × DBState :=
  if is_admin then
    (true, { db with weightlifts := db.weightlifts.filter (fun w => !(w.id == pr_id)) })
  else
    let ws := db.weightlifts.filter (fun w => !(w.id == pr_id && w.user_id == user_id))
    (true, { db with weightlifts := ws })

/-- db.get_benchmarks_by_user: SELECT * WHERE user_id = ? ORDER BY date
DESC. -/
def get_benchmarks_by_user (db : DBState) (user_id : Nat) : List BenchmarkRec :=
  sortByKeyDesc (fun b => b.date) (db.benchmarks.filter (fun b => b.user_id == user_id))

/-- db.get_all_benchmarks: inner join with users, newest first. -/
def get_all_benchmarks (db : DBState) : List (BenchmarkRec × UserRec) :=
  sortByKeyDesc (fun p => p.1.date)
    (db.benchmarks.bind (fun b =>
      (db.users.filter (fun u => u.id == b.user_id)).map (fun u => (b, u))))

/-- `entry["time_minutes"] * 60 + entry["time_seconds"]`. -/
def totalSeconds (e : BenchmarkRec) : Int :=
  e.time_minutes * 60 + e.time_seconds

/-- One iteration of the loop in db.get_current_prs_benchmarks: seed the dict
on an unseen workout; replace only when the new total is strictly smaller
than the current one AND strictly positive. -/
def prsStepBenchmark (prs : List (String × BenchmarkRec)) (entry : BenchmarkRec) :
    List (String × BenchmarkRec) :=
  match dictFind prs entry.workout with
  | none => dictInsert prs entry.workout entry
  | some cur =>
    if totalSeconds entry < totalSeconds cur ∧ 0 < totalSeconds entry then
      dictInsert prs entry.workout entry
    else prs

/-- db.get_current_prs_benchmarks. -/
def get_current_prs_benchmarks (db : DBState) (user_id : Nat) :
    List (String × BenchmarkRec) :=
  let data := get_benchmarks_by_user db user_id
  if data.isEmpty then [] else data.foldl prsStepBenchmark []

/-- db.delete_benchmark_pr: same shape as delete_weightlift_pr. -/
def delete_benchmark_pr (db : DBState) (pr_id : Nat) (user_id : Nat) (is_admin : Bool) :
    Bool × DBState :=
  if is_admin then
    (true, { db with benchmarks := db.benchmarks.filter (fun b => !(b.id == pr_id)) })
  else
    let bs := db.benchmarks.filter (fun b => !(b.id == pr_id && b.user_id == user_id))
    (true, { db with benchmarks := bs })

/-- Well-formedness of a hash string in the bcrypt model: it carries the
`"bcrypt$"` tag as a prefix. -/
def isBcryptHash (h : String) : Bool :=
  h.data.take 7 == "bcrypt$".data

/-- Model of `bcrypt.checkpw`: raises (here: `Except.error`) when the hash
string is not a well-formed bcrypt hash, otherwise reports whether the
password matches.  Salted hashing is modelled deterministically by the
tagged string `"bcrypt$" ++ password`. -/
def bcrypt_checkpw (password hash : String) : Except String Bool :=
  if isBcryptHash hash then Except.ok (hash == "bcrypt$" ++ password)
  else Except.error "Invalid salt"

/-- auth.hash_password (bcrypt.hashpw with a fresh salt, modelled
deterministically; the hash verifies against exactly its password). -/
def hash_password (password : String) : String :=
  "bcrypt$" ++ password

/-- auth.verify_password: try bcrypt.checkpw, except → False. -/
def verify_password (password password_hash : String) : Bool :=
  match bcrypt_checkpw password password_hash with
  | Except.ok b => b
  | Except.error _ => false

/-- auth.login_user: look the user up by username; return it only if the
password verifies, `None` otherwise (both on unknown username and on bad
password). -/
def login_user (db : DBState) (username password : String) : Option UserRec :=
  match get_user_by_username db username with
  | some user => if verify_password password user.password_hash then some user else none
  | none => none

/-- auth.register_user: hash the password, create with role 'user'; report
whether a user id came back. -/
def register_user (db : DBState) (username password : String)
    (full_name : Option String) : Bool × DBState :=
  let password_hash := hash_password password
  let r := create_user db username password_hash "user" full_name
  (r.1.isSome, r.2)

/-- Modelled from the spec: auth.ensure_default_admin calls `db.has_users()`
(auth.py line 138), but no function named `has_users` is defined in
src/db.py — only this caller exists under src/.  The spec's bootstrap rule
reads "if the Credential Store has zero users", so the missing predicate is
modelled as: the users table is nonempty. -/
def has_users (db : DBState) : Bool :=
  !db.users.isEmpty

/-- auth.ensure_default_admin: when no users exist, create the default
admin/admin account and return True; otherwise do nothing and return
False. -/
def ensure_default_admin (db : DBState) : Bool × DBState :=
  if !has_users db then
    let password_hash := hash_password "admin"
    let r := create_user db "admin" password_hash "admin" (some "Administrator")
    (true, r.2)
  else
    (false, db)

/-! ### Concrete states used by witnesses and counterexamples -/

/-- A freshly initialised, empty database. -/
def dbEmpty : DBState :=
  ⟨[], [], [], 1, 1, 1⟩

/-- A store holding one ordinary user `alice` whose password is `pw1`. -/
def dbAlice : DBState :=
  ⟨[⟨1, "alice", hash_password "pw1", "user", none⟩], [], [], 2, 1, 1⟩

/-! ### Claims -/

/-- C9: whenever the underlying `bcrypt.checkpw` raises — in particular on
every malformed (untagged) string in the hash position — the try/except in
`verify_password` turns the exception into `false`.  That `verify_password`
never raises is modelled by its type: it is a total function into `Bool`,
with the only exception source (`bcrypt_checkpw`) caught by the match. -/
theorem C9_verify_password_malformed_hash_false (password h e : String)
    (hx : bcrypt_checkpw password h = Except.error e) :
    verify_password password h = false := by
  simp [verify_password, hx]

theorem C9_witness : verify_password "pw" "nothash" = false :=
  C9_verify_password_malformed_hash_false "pw" "nothash" "Invalid salt" rfl

/-- C7: `login_user` returns the identical failure value `none` whether the
username is absent from the credential store or present with a
non-verifying password: the two failure causes are observationally
indistinguishable. -/
theorem C7_login_failure_uniform (db : DBState) (username password : String) :
    (get_user_by_username db username = none → login_user db username password = none) ∧
    (∀ u : UserRec, get_user_by_username db username = some u →
      verify_password password u.password_hash = false →
      login_user db username password = none) := by
  constructor
  · intro h
    simp [login_user, h]
  · intro u hu hv
    simp [login_user, hu, hv]

theorem C7_witness :
    login_user dbAlice "bob" "pw1" = none ∧ login_user dbAlice "alice" "wrong" = none := by
  constructor
  · exact (C7_login_failure_uniform dbAlice "bob" "pw1").1 (by decide)
  · exact (C7_login_failure_uniform dbAlice "alice" "wrong").2
      ⟨1, "alice", hash_password "pw1", "user", none⟩ (by decide) (by decide)

/-- C8: whatever username, password and optional full name are supplied,
`register_user` either changes nothing (duplicate username) or appends
exactly one user whose role is the string "user" — never "coach", never
"admin". -/
theorem C8_register_assigns_role_user (db : DBState) (username password : String)
    (full_name : Option String) :
    (register_user db username password full_name).2.users = db.users ∨
    ∃ u : UserRec,
      (register_user db username password full_name).2.users = db.users ++ [u] ∧
        u.username = username ∧ u.role = "user" ∧ u.role ≠ "coach" ∧ u.role ≠ "admin" := by
  cases h : (db.users.find? (fun u => u.username == username)).isSome with
  | true =>
    left
    simp [register_user, create_user, h]
  | false =>
    right
    refine ⟨⟨db.next_user_id, username, hash_password password, "user", full_name⟩,
      ?_, rfl, rfl, ?_, ?_⟩
    · simp [register_user, create_user, h]
    · show ("user" : String) ≠ "coach"
      decide
    · show ("user" : String) ≠ "admin"
      decide

/-- C5: both delete operations report success unconditionally, and a record
survives the call exactly when it is not the targeted id with permission
(admin, or owner equal to the acting user); when nothing matches — wrong
id, or a record owned by someone else without the admin flag — the whole
state is left unchanged, so a caller cannot tell a deletion from a no-op. -/
theorem C5_delete_pr_semantics (db : DBState) (pr_id user_id : Nat) (is_admin : Bool) :
    (delete_weightlift_pr db pr_id user_id is_admin).1 = true ∧
    (delete_benchmark_pr db pr_id user_id is_admin).1 = true ∧
    (∀ w : WeightliftRec,
      w ∈ (delete_weightlift_pr db pr_id user_id is_admin).2.weightlifts ↔
        w ∈ db.weightlifts ∧ ¬(w.id = pr_id ∧ (is_admin = true ∨ w.user_id = user_id))) ∧
    (∀ b : BenchmarkRec,
      b ∈ (delete_benchmark_pr db pr_id user_id is_admin).2.benchmarks ↔
        b ∈ db.benchmarks ∧ ¬(b.id = pr_id ∧ (is_admin = true ∨ b.user_id = user_id))) ∧
    ((∀ w ∈ db.weightlifts, ¬(w.id = pr_id ∧ (is_admin = true ∨ w.user_id = user_id))) →
      (delete_weightlift_pr db pr_id user_id is_admin).2 = db) ∧
    ((∀ b ∈ db.benchmarks, ¬(b.id = pr_id ∧ (is_admin = true ∨ b.user_id = user_id))) →
      (delete_benchmark_pr db pr_id user_id is_admin).2 = db) := by
  cases is_admin with
  | true =>
    refine ⟨rfl, rfl, ?_, ?_, ?_, ?_⟩
    · intro w
      simp [delete_weightlift_pr, List.mem_filter]
    · intro b
      simp [delete_benchmark_pr, List.mem_filter]
    · intro hno
      have : db.weightlifts.filter (fun w => !(w.id == pr_id)) = db.weightlifts := by
        rw [List.filter_eq_self]
        intro w hw
        simpa using (hno w hw)
      simp [delete_weightlift_pr, this]
    · intro hno
      have : db.benchmarks.filter (fun b => !(b.id == pr_id)) = db.benchmarks := by
        rw [List.filter_eq_self]
        intro b hb
        simpa using (hno b hb)
      simp [delete_benchmark_pr, this]
  | false =>
    refine ⟨rfl, rfl, ?_, ?_, ?_, ?_⟩
    · intro w
      simp [delete_weightlift_pr, List.mem_filter]
      tauto
    · intro b
      simp [delete_benchmark_pr, List.mem_filter]
      tauto
    · intro hno
      have hfe : db.weightlifts.filter (fun w => !(w.id == pr_id && w.user_id == user_id)) =
          db.weightlifts := by
        rw [List.filter_eq_self]
        intro w hw
        have h := hno w hw
        simp at h ⊢
        tauto
      show ({ db with weightlifts :=
        db.weightlifts.filter (fun w => !(w.id == pr_id && w.user_id == user_id)) } : DBState) = db
      rw [hfe]
    · intro hno
      have hfe : db.benchmarks.filter (fun b => !(b.id == pr_id && b.user_id == user_id)) =
          db.benchmarks := by
        rw [List.filter_eq_self]
        intro b hb
        have h := hno b hb
        simp at h ⊢
        tauto
      show ({ db with benchmarks :=
        db.benchmarks.filter (fun b => !(b.id == pr_id && b.user_id == user_id)) } : DBState) = db
      rw [hfe]

/-- A store for the deletion witnesses: `alice` owns weightlift 1 and
benchmark 1; `bob` owns nothing. -/
def dbDelete : DBState :=
  ⟨[⟨1, "alice", hash_password "pw1", "user", none⟩,
    ⟨2, "bob", hash_password "pw2", "user", none⟩],
   [⟨1, 1, "Deadlift", 100, "kg", "", 10⟩],
   [⟨1, 1, "Fran", 4, 45, 0, 0, "", 11⟩], 3, 2, 2⟩

theorem C5_witness :
    (delete_weightlift_pr dbDelete 1 2 false).1 = true ∧
    (delete_weightlift_pr dbDelete 1 2 false).2 = dbDelete ∧
    (delete_benchmark_pr dbDelete 7 2 true).1 = true ∧
    (delete_benchmark_pr dbDelete 7 2 true).2 = dbDelete := by
  have h1 := C5_delete_pr_semantics dbDelete 1 2 false
  have h2 := C5_delete_pr_semantics dbDelete 7 2 true
  refine ⟨h1.1, h1.2.2.2.2.1 ?_, h2.2.1, h2.2.2.2.2.2 ?_⟩
  · intro w hw
    fin_cases hw
    decide
  · intro b hb
    fin_cases hb
    decide

/-- The first match of the id search is unaffected in position by the role
update, and its role field becomes the new string. -/
theorem find_id_after_role_update (l : List UserRec) (uid : Nat) (r : String) :
    (l.map (fun u => if u.id == uid then { u with role := r } else u)).find?
        (fun u => u.id == uid) =
      (l.find? (fun u => u.id == uid)).map (fun u => { u with role := r }) := by
  induction l with
  | nil => rfl
  | cons a l ih =>
    cases hb : (a.id == uid) with
    | true =>
      rw [List.map_cons, if_pos hb]
      simp only [List.find?]
      simp [hb]
    | false =>
      have hnot : ¬((a.id == uid) = true) := by simp [hb]
      rw [List.map_cons, if_neg hnot]
      simp only [List.find?, hb]
      exact ih

/-- C10: roles are stored verbatim with no validation against the closed set
user/coach/admin: updating an existing user's role to any string reports
success and is read back verbatim, and creation with any role string
succeeds (absent a duplicate username) storing that exact string. -/
theorem C10_role_not_validated :
    (∀ (db : DBState) (user_id : Nat) (role : String) (u : UserRec),
      get_user_by_id db user_id = some u →
      (update_user_role db user_id role).1 = true ∧
      get_user_by_id (update_user_role db user_id role).2 user_id =
        some { u with role := role }) ∧
    (∀ (db : DBState) (username password_hash role : String) (full_name : Option String),
      get_user_by_username db username = none →
      (create_user db username password_hash role full_name).1 = some db.next_user_id ∧
      (create_user db username password_hash role full_name).2.users =
        db.users ++ [⟨db.next_user_id, username, password_hash, role, full_name⟩]) := by
  constructor
  · intro db user_id role u hu
    refine ⟨rfl, ?_⟩
    show (db.users.map (fun v => if v.id == user_id then { v with role := role } else v)).find?
        (fun v => v.id == user_id) = some { u with role := role }
    have hu' : db.users.find? (fun v => v.id == user_id) = some u := hu
    rw [find_id_after_role_update, hu']
    rfl
  · intro db username password_hash role full_name hn
    have hn' : db.users.find? (fun u => u.username == username) = none := hn
    have h : (db.users.find? (fun u => u.username == username)).isSome = false := by
      rw [hn']
      rfl
    constructor
    · simp [create_user, h]
    · simp [create_user, h]

theorem C10_witness :
    get_user_by_id (update_user_role dbAlice 1 "superuser").2 1 =
      some ⟨1, "alice", hash_password "pw1", "superuser", none⟩ ∧
    (create_user dbAlice "bob" "x" "banana" none).1 = some 2 := by
  constructor
  · exact (C10_role_not_validated.1 dbAlice 1 "superuser"
      ⟨1, "alice", hash_password "pw1", "user", none⟩ (by decide)).2
  · exact (C10_role_not_validated.2 dbAlice "bob" "x" "banana" none (by decide)).1

/-- C6: once a user with some username has been created, any further
creation attempt with the same username — through `create_user` directly or
through `register_user` — fails (`none` / `false`) and leaves the state
exactly as it was, and the first user is still the one returned by a
username lookup afterwards. -/
theorem C6_duplicate_username_second_attempt_fails (db db1 : DBState)
    (username p1 r1 : String) (f1 : Option String) (uid : Nat)
    (h : create_user db username p1 r1 f1 = (some uid, db1)) :
    ∀ (p2 r2 : String) (f2 : Option String),
      create_user db1 username p2 r2 f2 = (none, db1) ∧
      register_user db1 username p2 f2 = (false, db1) ∧
      ∃ u : UserRec, get_user_by_username db1 username = some u ∧
        get_user_by_username (create_user db1 username p2 r2 f2).2 username = some u ∧
        get_user_by_username (register_user db1 username p2 f2).2 username = some u := by
  intro p2 r2 f2
  cases hc : (db.users.find? (fun u => u.username == username)).isSome with
  | true =>
    rw [create_user, if_pos hc] at h
    exact absurd (congrArg Prod.fst h) (by simp)
  | false =>
    rw [create_user, if_neg (by simp [hc])] at h
    have hdb1 : db1 = { db with
        users := db.users ++ [⟨db.next_user_id, username, p1, r1, f1⟩],
        next_user_id := db.next_user_id + 1 } :=
      (congrArg Prod.snd h).symm
    have hn : db.users.find? (fun u => u.username == username) = none := by
      cases hfo : db.users.find? (fun u => u.username == username) with
      | none => rfl
      | some v =>
        rw [hfo] at hc
        simp at hc
    have hfind : db1.users.find? (fun u => u.username == username) =
        some ⟨db.next_user_id, username, p1, r1, f1⟩ := by
      rw [hdb1]
      show (db.users ++ [(⟨db.next_user_id, username, p1, r1, f1⟩ : UserRec)]).find?
        (fun u : UserRec => u.username == username) = _
      rw [List.find?_append, hn]
      simp [List.find?]
    have hsome : (db1.users.find? (fun u => u.username == username)).isSome = true := by
      rw [hfind]
      rfl
    refine ⟨?_, ?_, ?_⟩
    · rw [create_user, if_pos hsome]
    · rw [register_user]
      show ((create_user db1 username (hash_password p2) "user" f2).1.isSome,
        (create_user db1 username (hash_password p2) "user" f2).2) = (false, db1)
      rw [create_user, if_pos hsome]
      rfl
    · refine ⟨⟨db.next_user_id, username, p1, r1, f1⟩, hfind, ?_, ?_⟩
      · rw [create_user, if_pos hsome]
        exact hfind
      · rw [register_user]
        show get_user_by_username
          (create_user db1 username (hash_password p2) "user" f2).2 username = _
        rw [create_user, if_pos hsome]
        exact hfind

/-- The store after the first successful creation of `alice`. -/
def dbAfterFirst : DBState :=
  ⟨[⟨1, "alice", "h1", "user", none⟩], [], [], 2, 1, 1⟩

theorem C6_witness :
    create_user dbAfterFirst "alice" "h2" "user" none = (none, dbAfterFirst) ∧
    register_user dbAfterFirst "alice" "pw2" none = (false, dbAfterFirst) := by
  have h := C6_duplicate_username_second_attempt_fails dbEmpty dbAfterFirst
    "alice" "h1" "user" none 1 (by decide) "h2" "user" none
  exact ⟨h.1, (C6_duplicate_username_second_attempt_fails dbEmpty dbAfterFirst
    "alice" "h1" "user" none 1 (by decide) "pw2" "user" none).2.1⟩

/-- C3: on startup with an empty credential store, `ensure_default_admin`
(with the spec-modelled `has_users`) creates exactly one user, an
admin-role `admin` whose stored hash verifies against the fixed default
password "admin", and reports `true`; with at least one user present it
creates nothing, changes nothing, and reports `false`. -/
theorem C3_bootstrap_default_admin (db : DBState) :
    (db.users = [] →
      (ensure_default_admin db).1 = true ∧
      ∃ u : UserRec, (ensure_default_admin db).2.users = [u] ∧
        u.username = "admin" ∧ u.role = "admin" ∧
        verify_password "admin" u.password_hash = true) ∧
    (db.users ≠ [] → ensure_default_admin db = (false, db)) := by
  constructor
  · intro h
    refine ⟨?_, ⟨db.next_user_id, "admin", hash_password "admin", "admin",
      some "Administrator"⟩, ?_, rfl, rfl, ?_⟩
    · simp [ensure_default_admin, has_users, h]
    · simp [ensure_default_admin, has_users, create_user, h]
    · show verify_password "admin" (hash_password "admin") = true
      decide
  · intro h
    cases hu : db.users with
    | nil => exact absurd hu h
    | cons a l => simp [ensure_default_admin, has_users, hu]

theorem C3_witness :
    (ensure_default_admin dbEmpty).1 = true ∧
    ensure_default_admin dbAlice = (false, dbAlice) := by
  constructor
  · exact ((C3_bootstrap_default_admin dbEmpty).1 rfl).1
  · exact (C3_bootstrap_default_admin dbAlice).2 (by decide)

/-! ### The per-movement / per-workout projection of the PR scans -/

/-- The scan state restricted to one movement: the first record seeds, and a
later record replaces the holder exactly on strictly greater weight —
`entry["weight"] > prs[movement]["weight"]` in db.py. -/
def runBestWeightlift (c : WeightliftRec) : List WeightliftRec → WeightliftRec
  | [] => c
  | r :: rs => runBestWeightlift (if c.weight < r.weight then r else c) rs

/-- The same projection before the movement has been seen (accumulator may
be empty). -/
def runBestWeightliftOpt : Option WeightliftRec → List WeightliftRec → Option WeightliftRec
  | acc, [] => acc
  | none, r :: rs => runBestWeightliftOpt (some r) rs
  | some c, r :: rs =>
    runBestWeightliftOpt (some (if c.weight < r.weight then r else c)) rs

/-- The scan state restricted to one workout: the first record seeds, and a
later record replaces the holder exactly when its total is strictly smaller
and strictly positive — db.py's
`total_seconds < current_total and total_seconds > 0`. -/
def runBestBenchmark (c : BenchmarkRec) : List BenchmarkRec → BenchmarkRec
  | [] => c
  | r :: rs =>
    runBestBenchmark
      (if totalSeconds r < totalSeconds c ∧ 0 < totalSeconds r then r else c) rs

/-- Accumulator form of `runBestBenchmark`. -/
def runBestBenchmarkOpt : Option BenchmarkRec → List BenchmarkRec → Option BenchmarkRec
  | acc, [] => acc
  | none, r :: rs => runBestBenchmarkOpt (some r) rs
  | some c, r :: rs =>
    runBestBenchmarkOpt
      (some (if totalSeconds r < totalSeconds c ∧ 0 < totalSeconds r then r else c)) rs

theorem dictFind_dictInsert (d : List (String × α)) (k k' : String) (v : α) :
    dictFind (dictInsert d k v) k' = if k = k' then some v else dictFind d k' := by
  induction d with
  | nil =>
    by_cases h : k = k'
    · simp [dictInsert, dictFind, h]
    · simp [dictInsert, dictFind, h]
  | cons p ps ih =>
    by_cases hp : p.1 = k
    · by_cases h : k = k'
      · simp [dictInsert, dictFind, hp, h]
      · simp [dictInsert, dictFind, hp, h]
    · by_cases h : k = k'
      · subst h
        simp [dictInsert, dictFind, hp, ih]
      · have h' : ¬k' = k := fun hh => h hh.symm
        by_cases hq : p.1 = k'
        · simp [dictInsert, dictFind, hp, h, h', hq]
        · simp [dictInsert, dictFind, hp, h, h', hq, ih]

theorem runBestWeightliftOpt_cons (acc : Option WeightliftRec) (e : WeightliftRec)
    (rest : List WeightliftRec) :
    runBestWeightliftOpt acc (e :: rest) =
      runBestWeightliftOpt (runBestWeightliftOpt acc [e]) rest := by
  cases acc <;> rfl

theorem runBestBenchmarkOpt_cons (acc : Option BenchmarkRec) (e : BenchmarkRec)
    (rest : List BenchmarkRec) :
    runBestBenchmarkOpt acc (e :: rest) =
      runBestBenchmarkOpt (runBestBenchmarkOpt acc [e]) rest := by
  cases acc <;> rfl

/-- The dict built by the loop in `get_current_prs_weightlifts`, looked up
at a movement, is the per-movement projection folded over the records of
that movement in scan order. -/
theorem dictFind_foldl_prsStepWeightlift (l : List WeightliftRec)
    (d : List (String × WeightliftRec)) (m : String) :
    dictFind (l.foldl prsStepWeightlift d) m =
      runBestWeightliftOpt (dictFind d m) (l.filter (fun r => r.movement == m)) := by
  induction l generalizing d with
  | nil => cases hd : dictFind d m <;> simp [runBestWeightliftOpt, hd]
  | cons e l ih =>
    rw [List.foldl_cons, ih]
    by_cases hm : e.movement = m
    · have hfil : (e :: l).filter (fun r => r.movement == m) =
          e :: l.filter (fun r => r.movement == m) := by
        simp [List.filter_cons, hm]
      rw [hfil, runBestWeightliftOpt_cons]
      congr 1
      simp only [prsStepWeightlift, hm]
      cases hd : dictFind d m with
      | none => simp [hd, dictFind_dictInsert, runBestWeightliftOpt]
      | some c =>
        by_cases hw : c.weight < e.weight
        · simp [hd, hw, dictFind_dictInsert, runBestWeightliftOpt]
        · simp [hd, hw, runBestWeightliftOpt]
    · have hfil : (e :: l).filter (fun r => r.movement == m) =
          l.filter (fun r => r.movement == m) := by
        simp [List.filter_cons, hm]
      rw [hfil]
      congr 1
      simp only [prsStepWeightlift]
      cases hd : dictFind d e.movement with
      | none => simp [dictFind_dictInsert, hm]
      | some c =>
        by_cases hw : c.weight < e.weight
        · simp [hw, dictFind_dictInsert, hm]
        · simp [hw]

/-- Benchmark version of the fold/projection correspondence. -/
theorem dictFind_foldl_prsStepBenchmark (l : List BenchmarkRec)
    (d : List (String × BenchmarkRec)) (m : String) :
    dictFind (l.foldl prsStepBenchmark d) m =
      runBestBenchmarkOpt (dictFind d m) (l.filter (fun r => r.workout == m)) := by
  induction l generalizing d with
  | nil => cases hd : dictFind d m <;> simp [runBestBenchmarkOpt, hd]
  | cons e l ih =>
    rw [List.foldl_cons, ih]
    by_cases hm : e.workout = m
    · have hfil : (e :: l).filter (fun r => r.workout == m) =
          e :: l.filter (fun r => r.workout == m) := by
        simp [List.filter_cons, hm]
      rw [hfil, runBestBenchmarkOpt_cons]
      congr 1
      simp only [prsStepBenchmark, hm]
      cases hd : dictFind d m with
      | none => simp [hd, dictFind_dictInsert, runBestBenchmarkOpt]
      | some c =>
        by_cases hw : totalSeconds e < totalSeconds c ∧ 0 < totalSeconds e
        · simp [hd, hw, dictFind_dictInsert, runBestBenchmarkOpt]
        · simp [hd, hw, runBestBenchmarkOpt]
    · have hfil : (e :: l).filter (fun r => r.workout == m) =
          l.filter (fun r => r.workout == m) := by
        simp [List.filter_cons, hm]
      rw [hfil]
      congr 1
      simp only [prsStepBenchmark]
      cases hd : dictFind d e.workout with
      | none => simp [dictFind_dictInsert, hm]
      | some c =>
        by_cases hw : totalSeconds e < totalSeconds c ∧ 0 < totalSeconds e
        · simp [hw, dictFind_dictInsert, hm]
        · simp [hw]

theorem runBestWeightliftOpt_some (c : WeightliftRec) (l : List WeightliftRec) :
    runBestWeightliftOpt (some c) l = some (runBestWeightlift c l) := by
  induction l generalizing c with
  | nil => rfl
  | cons r rs ih => simp [runBestWeightliftOpt, runBestWeightlift, ih]

theorem runBestBenchmarkOpt_some (c : BenchmarkRec) (l : List BenchmarkRec) :
    runBestBenchmarkOpt (some c) l = some (runBestBenchmark c l) := by
  induction l generalizing c with
  | nil => rfl
  | cons r rs ih => simp [runBestBenchmarkOpt, runBestBenchmark, ih]

theorem runBestWeightlift_mem (c : WeightliftRec) (l : List WeightliftRec) :
    runBestWeightlift c l ∈ c :: l := by
  induction l generalizing c with
  | nil => simp [runBestWeightlift]
  | cons r rs ih =>
    rw [runBestWeightlift]
    rcases List.mem_cons.mp (ih (if c.weight < r.weight then r else c)) with h1 | h2
    · rw [h1]
      by_cases hw : c.weight < r.weight
      · simp [hw]
      · simp [hw]
    · simp [List.mem_cons, h2]

theorem runBestWeightlift_le (c : WeightliftRec) (l : List WeightliftRec) :
    ∀ x ∈ c :: l, x.weight ≤ (runBestWeightlift c l).weight := by
  induction l generalizing c with
  | nil =>
    intro x hx
    rcases List.mem_cons.mp hx with h1 | h2
    · rw [h1]
      exact le_refl _
    · exact absurd h2 (List.not_mem_nil x)
  | cons r rs ih =>
    intro x hx
    rw [runBestWeightlift]
    by_cases hw : c.weight < r.weight
    · rw [if_pos hw]
      rcases List.mem_cons.mp hx with h1 | hx'
      · rw [h1]
        exact le_trans (le_of_lt hw) (ih r r (List.mem_cons_self r rs))
      · exact ih r x hx'
    · rw [if_neg hw]
      rcases List.mem_cons.mp hx with h1 | hx'
      · rw [h1]
        exact ih c c (List.mem_cons_self c rs)
      · rcases List.mem_cons.mp hx' with h2 | hx''
        · rw [h2]
          exact le_trans (le_of_not_lt hw) (ih c c (List.mem_cons_self c rs))
        · exact ih c x (List.mem_cons_of_mem c hx'')

theorem runBestWeightlift_first (c : WeightliftRec) (l : List WeightliftRec) :
    ∃ l1 l2, c :: l = l1 ++ (runBestWeightlift c l) :: l2 ∧
      ∀ x ∈ l1, x.weight < (runBestWeightlift c l).weight := by
  induction l generalizing c with
  | nil => exact ⟨[], [], rfl, by simp⟩
  | cons r rs ih =>
    rw [runBestWeightlift]
    by_cases hw : c.weight < r.weight
    · rw [if_pos hw]
      obtain ⟨l1, l2, heq, hlt⟩ := ih r
      refine ⟨c :: l1, l2, ?_, ?_⟩
      · rw [List.cons_append, ← heq]
      · intro x hx
        rcases List.mem_cons.mp hx with h1 | h1
        · rw [h1]
          exact lt_of_lt_of_le hw (runBestWeightlift_le r rs r (List.mem_cons_self r rs))
        · exact hlt x h1
    · rw [if_neg hw]
      obtain ⟨l1, l2, heq, hlt⟩ := ih c
      cases l1 with
      | nil =>
        simp only [List.nil_append] at heq
        have hc : c = runBestWeightlift c rs := (List.cons.injEq _ _ _ _ ▸ heq).1
        refine ⟨[], r :: rs, ?_, by simp⟩
        rw [List.nil_append, ← hc]
      | cons a l1' =>
        rw [List.cons_append] at heq
        have ha : a = c := ((List.cons.injEq _ _ _ _ ▸ heq).1).symm
        have hrs : rs = l1' ++ runBestWeightlift c rs :: l2 :=
          (List.cons.injEq _ _ _ _ ▸ heq).2
        have hcbest : c.weight < (runBestWeightlift c rs).weight := by
          apply hlt
          rw [ha]
          exact List.mem_cons_self c l1'
        refine ⟨c :: r :: l1', l2, ?_, ?_⟩
        · rw [List.cons_append, List.cons_append, ← hrs]
        · intro x hx
          rcases List.mem_cons.mp hx with h1 | hx'
          · rw [h1]
            exact hcbest
          · rcases List.mem_cons.mp hx' with h2 | hx''
            · rw [h2]
              exact lt_of_le_of_lt (le_of_not_lt hw) hcbest
            · apply hlt
              rw [ha]
              exact List.mem_cons_of_mem c hx''

theorem runBestBenchmark_mem (c : BenchmarkRec) (l : List BenchmarkRec) :
    runBestBenchmark c l ∈ c :: l := by
  induction l generalizing c with
  | nil => simp [runBestBenchmark]
  | cons r rs ih =>
    rw [runBestBenchmark]
    rcases List.mem_cons.mp
        (ih (if totalSeconds r < totalSeconds c ∧ 0 < totalSeconds r then r else c)) with
      h1 | h2
    · rw [h1]
      by_cases hw : totalSeconds r < totalSeconds c ∧ 0 < totalSeconds r
      · simp [hw]
      · simp [hw]
    · simp [List.mem_cons, h2]

/-- The replacement rule only ever lowers the held total. -/
theorem runBestBenchmark_le_seed (c : BenchmarkRec) (l : List BenchmarkRec) :
    totalSeconds (runBestBenchmark c l) ≤ totalSeconds c := by
  induction l generalizing c with
  | nil => exact le_refl _
  | cons r rs ih =>
    rw [runBestBenchmark]
    by_cases hw : totalSeconds r < totalSeconds c ∧ 0 < totalSeconds r
    · rw [if_pos hw]
      exact le_trans (ih r) (le_of_lt hw.1)
    · rw [if_neg hw]
      exact ih c

/-- A record can only take over the held slot with a strictly positive
total, so a positive seed stays positive. -/
theorem runBestBenchmark_pos (c : BenchmarkRec) (l : List BenchmarkRec)
    (h : 0 < totalSeconds c) : 0 < totalSeconds (runBestBenchmark c l) := by
  induction l generalizing c with
  | nil => exact h
  | cons r rs ih =>
    rw [runBestBenchmark]
    by_cases hw : totalSeconds r < totalSeconds c ∧ 0 < totalSeconds r
    · rw [if_pos hw]
      exact ih r hw.2
    · rw [if_neg hw]
      exact ih c h

/-- With a positive seed, the scan ends at the minimum total among the
positive-total records of the sequence. -/
theorem runBestBenchmark_min_pos (c : BenchmarkRec) (l : List BenchmarkRec)
    (h : 0 < totalSeconds c) :
    ∀ x ∈ c :: l, 0 < totalSeconds x →
      totalSeconds (runBestBenchmark c l) ≤ totalSeconds x := by
  induction l generalizing c with
  | nil =>
    intro x hx _
    rcases List.mem_cons.mp hx with h1 | h2
    · rw [h1]
      exact le_refl _
    · exact absurd h2 (List.not_mem_nil x)
  | cons r rs ih =>
    intro x hx hxpos
    rw [runBestBenchmark]
    by_cases hw : totalSeconds r < totalSeconds c ∧ 0 < totalSeconds r
    · rw [if_pos hw]
      rcases List.mem_cons.mp hx with h1 | hx'
      · rw [h1]
        exact le_trans (le_trans (runBestBenchmark_le_seed r rs) (le_of_lt hw.1)) (le_refl _)
      · exact ih r hw.2 x hx' hxpos
    · rw [if_neg hw]
      rcases List.mem_cons.mp hx with h1 | hx'
      · rw [h1]
        exact ih c h c (List.mem_cons_self c rs) h
      · rcases List.mem_cons.mp hx' with h2 | hx''
        · rw [h2]
          have hcr : totalSeconds c ≤ totalSeconds r := by
            by_contra hcon
            exact hw ⟨lt_of_not_le hcon, by rw [← h2]; exact hxpos⟩
          exact le_trans (runBestBenchmark_le_seed c rs) hcr
        · exact ih c h x (List.mem_cons_of_mem c hx'') hxpos

theorem runBestWeightliftOpt_none_cons (c : WeightliftRec) (l : List WeightliftRec) :
    runBestWeightliftOpt none (c :: l) = some (runBestWeightlift c l) := by
  rw [show runBestWeightliftOpt none (c :: l) = runBestWeightliftOpt (some c) l from rfl,
    runBestWeightliftOpt_some]

theorem runBestBenchmarkOpt_none_cons (c : BenchmarkRec) (l : List BenchmarkRec) :
    runBestBenchmarkOpt none (c :: l) = some (runBestBenchmark c l) := by
  rw [show runBestBenchmarkOpt none (c :: l) = runBestBenchmarkOpt (some c) l from rfl,
    runBestBenchmarkOpt_some]

/-- `get_current_prs_weightlifts`, looked up at one movement, is the
per-movement projection over that movement's records in scan order. -/
theorem dictFind_get_current_prs_weightlifts (db : DBState) (user_id : Nat) (m : String) :
    dictFind (get_current_prs_weightlifts db user_id) m =
      runBestWeightliftOpt none
        ((get_weightlifts_by_user db user_id).filter (fun r => r.movement == m)) := by
  simp only [get_current_prs_weightlifts]
  cases hdat : get_weightlifts_by_user db user_id with
  | nil => rfl
  | cons a as => exact dictFind_foldl_prsStepWeightlift (a :: as) [] m

/-- `get_current_prs_benchmarks`, looked up at one workout, is the
per-workout projection over that workout's records in scan order. -/
theorem dictFind_get_current_prs_benchmarks (db : DBState) (user_id : Nat) (w : String) :
    dictFind (get_current_prs_benchmarks db user_id) w =
      runBestBenchmarkOpt none
        ((get_benchmarks_by_user db user_id).filter (fun r => r.workout == w)) := by
  simp only [get_current_prs_benchmarks]
  cases hdat : get_benchmarks_by_user db user_id with
  | nil => rfl
  | cons a as => exact dictFind_foldl_prsStepBenchmark (a :: as) [] w

/-- Two records of the same user and movement with equal maximal weight:
the earlier-inserted, earlier-dated one... -/
def wTie1 : WeightliftRec := ⟨1, 1, "Deadlift", 100, "kg", "", 1⟩

/-- ...and the later-inserted, later-dated one. -/
def wTie2 : WeightliftRec := ⟨2, 1, "Deadlift", 100, "kg", "", 2⟩

/-- A store in which `alice` logged the two tied Deadlift records. -/
def dbTie : DBState :=
  ⟨[⟨1, "alice", "h", "user", none⟩], [wTie1, wTie2], [], 2, 3, 1⟩

/-- C1 fails as stated: with two records of equal maximal weight, the scan
runs newest-first, so the record returned is the later-inserted,
later-dated `wTie2`, not the first-inserted `wTie1`. -/
theorem C1_counterexample :
    dictFind (get_current_prs_weightlifts dbTie 1) "Deadlift" = some wTie2 ∧
    wTie2 ≠ wTie1 ∧
    wTie1 ∈ dbTie.weightlifts ∧ wTie2 ∈ dbTie.weightlifts ∧
    wTie1.user_id = 1 ∧ wTie2.user_id = 1 ∧
    wTie1.movement = "Deadlift" ∧ wTie2.movement = "Deadlift" ∧
    wTie1.weight = wTie2.weight ∧ wTie1.id < wTie2.id ∧ wTie1.date < wTie2.date := by
  decide

/-- C1 (amended): for every user, `get_current_prs_weightlifts` maps each
movement with at least one record to a record of that movement holding the
numerically greatest weight; when several records share the maximum, the
one returned is the FIRST of them in the scanned sequence — and the scan is
date-descending, so this is the latest-dated maximal record (equal dates
falling back to insertion order), not the first-inserted one. -/
theorem C1_amended_weightlift_prs_max (db : DBState) (user_id : Nat) (m : String) :
    ((get_weightlifts_by_user db user_id).filter (fun x => x.movement == m) ≠ [] →
      (dictFind (get_current_prs_weightlifts db user_id) m).isSome = true) ∧
    ∀ r : WeightliftRec, dictFind (get_current_prs_weightlifts db user_id) m = some r →
      r ∈ (get_weightlifts_by_user db user_id).filter (fun x => x.movement == m) ∧
      (∀ x ∈ (get_weightlifts_by_user db user_id).filter (fun x => x.movement == m),
        x.weight ≤ r.weight) ∧
      ∃ l1 l2, (get_weightlifts_by_user db user_id).filter (fun x => x.movement == m) =
        l1 ++ r :: l2 ∧ ∀ x ∈ l1, x.weight < r.weight := by
  have hmain := dictFind_get_current_prs_weightlifts db user_id m
  cases hfil : (get_weightlifts_by_user db user_id).filter (fun x => x.movement == m) with
  | nil =>
    rw [hfil] at hmain
    constructor
    · intro hne
      exact absurd rfl hne
    · intro r hr
      rw [hmain] at hr
      exact absurd hr (by simp [runBestWeightliftOpt])
  | cons c rest =>
    rw [hfil, runBestWeightliftOpt_none_cons] at hmain
    constructor
    · intro _
      rw [hmain]
      rfl
    · intro r hr
      rw [hmain] at hr
      have hreq : runBestWeightlift c rest = r := Option.some.inj hr
      subst hreq
      exact ⟨runBestWeightlift_mem c rest, runBestWeightlift_le c rest,
        runBestWeightlift_first c rest⟩

/-- alice's Back Squat history: 185, then 205, then 195 (dates ascending). -/
def wBS1 : WeightliftRec := ⟨1, 1, "Back Squat", 185, "lbs", "", 1⟩

def wBS2 : WeightliftRec := ⟨2, 1, "Back Squat", 205, "lbs", "", 2⟩

def wBS3 : WeightliftRec := ⟨3, 1, "Back Squat", 195, "lbs", "", 3⟩

def dbBS : DBState :=
  ⟨[⟨1, "alice", "h", "user", none⟩], [wBS1, wBS2, wBS3], [], 2, 4, 1⟩

theorem C1_witness :
    dictFind (get_current_prs_weightlifts dbBS 1) "Back Squat" = some wBS2 ∧
    wBS2 ∈ (get_weightlifts_by_user dbBS 1).filter (fun x => x.movement == "Back Squat") := by
  have hfind : dictFind (get_current_prs_weightlifts dbBS 1) "Back Squat" = some wBS2 := by
    decide
  exact ⟨hfind, ((C1_amended_weightlift_prs_max dbBS 1 "Back Squat").2 wBS2 hfind).1⟩

/-- A positive-time Fran record (5:00, 300 s total), dated earlier... -/
def bPos : BenchmarkRec := ⟨1, 1, "Fran", 5, 0, 0, 0, "", 1⟩

/-- ...and a zero-total AMRAP-style Fran record, dated later. -/
def bZero : BenchmarkRec := ⟨2, 1, "Fran", 0, 0, 20, 5, "", 2⟩

/-- A store in which `alice` logged `bPos` then `bZero`. -/
def dbZero : DBState :=
  ⟨[⟨1, "alice", "h", "user", none⟩], [], [bPos, bZero], 2, 1, 3⟩

/-- C2 fails as stated: the user has a positive-total Fran record, yet the
mapped best is the zero-total record — the scan is date-descending, the
zero-total record is scanned first and seeds the slot, and a seeded
zero-total holder can never be replaced (replacement needs a total
strictly below the held 0 while also strictly positive). -/
theorem C2_counterexample :
    dictFind (get_current_prs_benchmarks dbZero 1) "Fran" = some bZero ∧
    totalSeconds bZero = 0 ∧
    bPos ∈ dbZero.benchmarks ∧ bPos.user_id = 1 ∧ bPos.workout = "Fran" ∧
    0 < totalSeconds bPos ∧ bPos.date < bZero.date := by
  decide

/-- C2 (amended): restricted to workouts whose FIRST record in the scanned
(date-descending) sequence has strictly positive total time,
`get_current_prs_benchmarks` maps the workout to a record with the minimum
positive total; in particular no later-scanned zero-total record ever
overrides the positive-time best.  (When the first-scanned record has zero
total it seeds the slot and is returned even if positive-time records
follow, which is why the restriction is needed.) -/
theorem C2_amended_benchmark_min_positive (db : DBState) (user_id : Nat) (w : String)
    (c : BenchmarkRec) (rest : List BenchmarkRec)
    (hl : (get_benchmarks_by_user db user_id).filter (fun x => x.workout == w) = c :: rest)
    (hpos : 0 < totalSeconds c) :
    (dictFind (get_current_prs_benchmarks db user_id) w).isSome = true ∧
    ∀ r : BenchmarkRec, dictFind (get_current_prs_benchmarks db user_id) w = some r →
      r ∈ c :: rest ∧ 0 < totalSeconds r ∧
      ∀ x ∈ c :: rest, 0 < totalSeconds x → totalSeconds r ≤ totalSeconds x := by
  have hmain := dictFind_get_current_prs_benchmarks db user_id w
  rw [hl, runBestBenchmarkOpt_none_cons] at hmain
  constructor
  · rw [hmain]
    rfl
  · intro r hr
    rw [hmain] at hr
    have hreq : runBestBenchmark c rest = r := Option.some.inj hr
    subst hreq
    exact ⟨runBestBenchmark_mem c rest, runBestBenchmark_pos c rest hpos,
      runBestBenchmark_min_pos c rest hpos⟩

/-- alice's Fran history: 5:30 (330 s) then 4:45 (285 s), dates ascending. -/
def bF1 : BenchmarkRec := ⟨1, 1, "Fran", 5, 30, 0, 0, "", 1⟩

def bF2 : BenchmarkRec := ⟨2, 1, "Fran", 4, 45, 0, 0, "", 2⟩

def dbFran : DBState :=
  ⟨[⟨1, "alice", "h", "user", none⟩], [], [bF1, bF2], 2, 1, 3⟩

theorem C2_witness :
    dictFind (get_current_prs_benchmarks dbFran 1) "Fran" = some bF2 ∧
    0 < totalSeconds bF2 := by
  have hfind : dictFind (get_current_prs_benchmarks dbFran 1) "Fran" = some bF2 := by
    decide
  have h := (C2_amended_benchmark_min_positive dbFran 1 "Fran" bF2 [bF1]
    (by decide) (by decide)).2 bF2 hfind
  exact ⟨hfind, h.2.1⟩

/-- alice owns one weightlift row and one benchmark row. -/
def wOwned : WeightliftRec := ⟨1, 1, "Deadlift", 100, "kg", "", 1⟩

def bOwned : BenchmarkRec := ⟨1, 1, "Fran", 4, 45, 0, 0, "", 1⟩

def dbCascade : DBState :=
  ⟨[⟨1, "alice", "h", "user", none⟩], [wOwned], [bOwned], 2, 2, 2⟩

/-- C4: `delete_user` succeeds and the two `get_all_*` listings afterwards
sport zero records owned by the deleted id — but only because their SQL
inner JOIN against `users` drops orphans.  The owned rows are NOT deleted:
foreign-key enforcement is off (no `PRAGMA foreign_keys` in
`get_connection`), the declared `ON DELETE CASCADE` never fires, and the
rows are still in the tables and still returned by the per-user queries. -/
theorem C4_code_bug_rows_survive_user_deletion :
    (delete_user dbCascade 1).1 = true ∧
    get_all_weightlifts (delete_user dbCascade 1).2 = [] ∧
    get_all_benchmarks (delete_user dbCascade 1).2 = [] ∧
    (delete_user dbCascade 1).2.weightlifts = [wOwned] ∧
    (delete_user dbCascade 1).2.benchmarks = [bOwned] ∧
    get_weightlifts_by_user (delete_user dbCascade 1).2 1 = [wOwned] ∧
    get_benchmarks_by_user (delete_user dbCascade 1).2 1 = [bOwned] := by
  decide

theorem C8_witness : (register_user dbAlice "alice" "pw9" none).2.users = dbAlice.users := by
  rcases C8_register_assigns_role_user dbAlice "alice" "pw9" none with h | ⟨u, hu, -, -, -, -⟩
  · exact h
  · have hc : (register_user dbAlice "alice" "pw9" none).2.users = dbAlice.users := by
      decide
    rw [hc] at hu
    exact absurd (congrArg List.length hu) (by simp)
